import Mathlib

/-!
Shallow embedding of the `enforce-pep8` library (package `punish`): the
type-construction policy metaclasses of `punish/style.py` and the typed
attribute / argument enforcement layer of `punish/type.py`, together with
theorems settling the specification claims about them.

Conventions of the embedding:
* a Python class namespace is a list of `(name, value)` bindings in
  declaration order (Python dictionaries preserve insertion order);
* a namespace value is abstracted to the features the checked code reads
  from it: whether it is callable, whether it is truthy, its call
  signature, and whether it is marked abstract;
* call signatures (`inspect.Signature`) are data: an ordered list of
  parameters, each with a name, a kind, an optional default and an
  optional annotation, plus a return annotation; default values and
  annotations are abstracted to `Option Nat` codes, only their equality
  matters to the checked code;
* raising an exception is returning `Except.error`;
* string predicates (`str.isupper`, the `[a-z]`/`[A-Z]` regex classes)
  are modelled over ASCII, the alphabet of Python identifiers in this
  code base.
-/

namespace Punish

/-- Membership of the regex character class `[a-z]`. -/
def isAsciiLower (c : Char) : Bool := 'a' ≤ c && c ≤ 'z'

/-- Membership of the regex character class `[A-Z]`. -/
def isAsciiUpper (c : Char) : Bool := 'A' ≤ c && c ≤ 'Z'

/-- An ASCII letter: a cased character of a Python identifier. -/
def isAsciiAlpha (c : Char) : Bool := isAsciiLower c || isAsciiUpper c

/-- Helper for the regex `[a-z]+[A-Z]+` once its first character has been
consumed: the list starts with zero or more lower-case letters followed by
an upper-case letter. -/
def camelTail : List Char → Bool
  | [] => false
  | c :: rest => isAsciiUpper c || (isAsciiLower c && camelTail rest)

/-- Whether `re.compile("([a-z]+[A-Z]+).*").match(s)` succeeds: `s` begins with one
or more lower-case letters immediately followed by an upper-case letter
(`re.match` is anchored at the start of the string). -/
def matchesCamelPattern (s : String) : Bool :=
  match s.data with
  | [] => false
  | c :: rest => isAsciiLower c && camelTail rest

/-- Python `str.isupper()` over ASCII: at least one cased character and no
lower-case cased character. -/
def pyIsUpper (s : String) : Bool :=
  s.data.any isAsciiAlpha && s.data.all (fun c => !isAsciiLower c)

/-- Python `str.islower()` over ASCII: at least one cased character and no
upper-case cased character. -/
def pyIsLower (s : String) : Bool :=
  s.data.any isAsciiAlpha && s.data.all (fun c => !isAsciiUpper c)

/-- Python `s[0].islower()` for the class-name check of `NoLowerCaseMeta`
(class names are non-empty; on the empty string we answer `false`). -/
def firstCharIsLower (s : String) : Bool :=
  match s.data with
  | [] => false
  | c :: _ => isAsciiLower c

/-- Python `name.startswith("_")`: the name's first character is an
underscore (the implementation-reserved private marker). -/
def startsUnderscore (s : String) : Bool :=
  match s.data with
  | [] => false
  | c :: _ => c == '_'

/-- Kind of an `inspect.Parameter`. -/
inductive ParamKind where
  | positionalOnly
  | positionalOrKeyword
  | varPositional
  | keywordOnly
  | varKeyword
deriving DecidableEq, Repr

/-- An `inspect.Parameter`: name, kind, optional default value and optional
annotation (both abstracted to equality-comparable codes). -/
structure Param where
  name : String
  kind : ParamKind
  dflt : Option Nat
  ann : Option Nat
deriving DecidableEq, Repr

/-- An `inspect.Signature`: the ordered parameters and the return
annotation; `inspect.Signature` equality compares all of these fields. -/
structure Sig where
  params : List Param
  retAnn : Option Nat
deriving DecidableEq, Repr

/-- A Python value as seen by the metaclass checks of `punish/style.py`:
whether `callable(value)` holds, whether the value is truthy, the signature
`inspect.signature(value)` would report when the value is callable, and
whether the value carries `__isabstractmethod__`. -/
structure PyVal where
  callable : Bool
  truthy : Bool
  sig : Sig
  isAbstract : Bool
deriving DecidableEq, Repr

/-- A plain non-callable, truthy, non-abstract value (a data attribute). -/
def dataVal : PyVal := ⟨false, true, ⟨[], none⟩, false⟩

/-- A truthy concrete callable with signature `s`. -/
def funcVal (s : Sig) : PyVal := ⟨true, true, s, false⟩

/-- The exceptions the policy metaclasses can raise during class
construction (`BadAttributeNameError`, `BadClassNameError`,
`SignatureError`, `DuplicateAttributeError`), plus the plain `TypeError`
that `inspect.signature` raises when applied to a non-callable object. -/
inductive StyleError where
  | badAttributeName (className attrName : String)
  | badClassName (className : String)
  | signatureError (qualName : String) (previous current : Sig)
  | duplicateAttribute (attrName className : String)
  | pySignatureTypeError
deriving DecidableEq, Repr

/-- The body of the loop of `NoMixedCaseMeta.__new__`: an attribute binding
is rejected when the anchored camel-case regex matches the name, or the
name is all upper-case and the value is callable. -/
def badAttrName (attrName : String) (value : PyVal) : Bool :=
  matchesCamelPattern attrName || (pyIsUpper attrName && value.callable)

/-- Embedding of `NoMixedCaseMeta.__new__`: scan the namespace in declaration order and
raise `BadAttributeNameError` at the first offending binding. -/
def noMixedCaseNew (className : String) (ns : List (String × PyVal)) :
    Except StyleError Unit :=
  match ns.find? (fun p => badAttrName p.1 p.2) with
  | some p => .error (.badAttributeName className p.1)
  | none => .ok ()

/-- The specification's reading of the camel-case pattern, stated
declaratively: the name begins with a non-empty run of lower-case letters
immediately followed by an upper-case letter. -/
def BeginsLowerUpper (s : String) : Prop :=
  ∃ pre c rest, s.data = pre ++ c :: rest ∧ pre ≠ [] ∧
    (∀ a ∈ pre, isAsciiLower a = true) ∧ isAsciiUpper c = true

/-- The claim's broader predicate: the name contains, anywhere, an
upper-case letter immediately preceded by a lower-case letter. -/
def containsLowerUpper : List Char → Bool
  | a :: b :: rest => (isAsciiLower a && isAsciiUpper b) || containsLowerUpper (b :: rest)
  | _ => false

theorem camelTail_iff (l : List Char) :
    camelTail l = true ↔
      ∃ pre c rest, l = pre ++ c :: rest ∧
        (∀ a ∈ pre, isAsciiLower a = true) ∧ isAsciiUpper c = true := by
  induction l with
  | nil =>
    simp [camelTail]
  | cons c rest ih =>
    simp only [camelTail, Bool.or_eq_true, Bool.and_eq_true]
    constructor
    · rintro (hu | ⟨hl, ht⟩)
      · exact ⟨[], c, rest, rfl, by simp, hu⟩
      · obtain ⟨pre, d, rest', heq, hpre, hd⟩ := ih.mp ht
        exact ⟨c :: pre, d, rest', by simp [heq], by
          intro a ha
          rcases List.mem_cons.mp ha with h | h
          · exact h ▸ hl
          · exact hpre a h, hd⟩
    · rintro ⟨pre, d, rest', heq, hpre, hd⟩
      cases pre with
      | nil =>
        simp only [List.nil_append, List.cons.injEq] at heq
        exact Or.inl (heq.1 ▸ hd)
      | cons a pre' =>
        simp only [List.cons_append, List.cons.injEq] at heq
        refine Or.inr ⟨heq.1 ▸ hpre a (List.mem_cons_self a pre'), ?_⟩
        exact ih.mpr ⟨pre', d, rest', heq.2, fun b hb => hpre b (List.mem_cons_of_mem a hb), hd⟩

theorem matchesCamelPattern_iff (s : String) :
    matchesCamelPattern s = true ↔ BeginsLowerUpper s := by
  unfold matchesCamelPattern BeginsLowerUpper
  cases hs : s.data with
  | nil =>
    simp only [Bool.false_eq_true, false_iff]
    rintro ⟨pre, c, rest, heq, hne, -⟩
    cases pre with
    | nil => exact hne rfl
    | cons a pre' => simp at heq
  | cons c rest =>
    rw [Bool.and_eq_true, camelTail_iff]
    constructor
    · rintro ⟨hc, pre, d, rest', heq, hpre, hd⟩
      refine ⟨c :: pre, d, rest', by simp [heq], by simp, ?_, hd⟩
      intro a ha
      rcases List.mem_cons.mp ha with h | h
      · exact h ▸ hc
      · exact hpre a h
    · rintro ⟨pre, d, rest', heq, hne, hpre, hd⟩
      cases pre with
      | nil => exact absurd rfl hne
      | cons a pre' =>
        simp only [List.cons_append, List.cons.injEq] at heq
        refine ⟨heq.1 ▸ hpre a (List.mem_cons_self a pre'), pre', d, rest', heq.2, ?_, hd⟩
        exact fun b hb => hpre b (List.mem_cons_of_mem a hb)

/-- Python `str.isupper()` stated declaratively: some cased character, and
no lower-case one. -/
def PyIsUpperSpec (s : String) : Prop :=
  (∃ c ∈ s.data, isAsciiAlpha c = true) ∧ ∀ c ∈ s.data, isAsciiLower c = false

theorem pyIsUpper_iff (s : String) : pyIsUpper s = true ↔ PyIsUpperSpec s := by
  unfold pyIsUpper PyIsUpperSpec
  simp [List.any_eq_true, List.all_eq_true]

theorem noMixedCaseNew_error_iff (cn : String) (ns : List (String × PyVal)) :
    (∃ n, noMixedCaseNew cn ns = .error (.badAttributeName cn n)) ↔
      ∃ p ∈ ns, badAttrName p.1 p.2 = true := by
  unfold noMixedCaseNew
  cases hf : ns.find? (fun p => badAttrName p.1 p.2) with
  | none =>
    simp only [reduceCtorEq, exists_false, false_iff, not_exists]
    intro p hp
    exact absurd hp.2 (by simpa using List.find?_eq_none.mp hf p hp.1)
  | some p =>
    simp only [Except.error.injEq, StyleError.badAttributeName.injEq, true_and,
      exists_eq', true_iff]
    exact ⟨p, List.mem_of_find?_eq_some hf, by simpa using List.find?_some hf⟩

/-- C1 (amended): under `NoMixedCaseMeta`, class construction raises
`BadAttributeNameError` exactly when some declared member name *begins
with* a non-empty run of lower-case letters immediately followed by an
upper-case letter, or is an all-upper-case name bound to a callable;
snake_case names and non-callable upper-case constants are accepted.  (The
claim's broader condition — a lower-to-upper transition anywhere in the
name — is refuted by `claim_C1_counterexample`.) -/
theorem claim_C1 (className : String) (ns : List (String × PyVal)) :
    (∃ n, noMixedCaseNew className ns = .error (.badAttributeName className n)) ↔
      ∃ p ∈ ns, BeginsLowerUpper p.1 ∨ (PyIsUpperSpec p.1 ∧ p.2.callable = true) := by
  rw [noMixedCaseNew_error_iff]
  refine exists_congr fun p => and_congr_right fun _ => ?_
  unfold badAttrName
  rw [Bool.or_eq_true, Bool.and_eq_true, matchesCamelPattern_iff, pyIsUpper_iff]

/-- C1, counterexample to the claim as stated: the member name `_fooBar`
contains a lower-to-upper transition (`o` → `B`), yet `NoMixedCaseMeta`
accepts the declaration, because the camel-case regex is anchored at the
start of the name and `_` is not a lower-case letter. -/
theorem claim_C1_counterexample :
    containsLowerUpper "_fooBar".data = true ∧
      noMixedCaseNew "Spam" [("_fooBar", dataVal)] = .ok () := by
  constructor
  · decide
  · rfl

/-- Association lookup, first binding wins (`getattr` on a resolved
attribute mapping, `dict` lookup on a mapping without duplicate keys). -/
def lookupAssoc {A : Type} (m : List (String × A)) (k : String) : Option A :=
  (m.find? (fun p => p.1 == k)).map Prod.snd

/-- Embedding of `getattr(super(cls, cls), name, None)`: resolve `name` through the
parent side of the MRO, `none` when the name is absent (Python's `None`
default, which is falsy). -/
def lookupAttr (parent : List (String × PyVal)) (n : String) : Option PyVal :=
  lookupAssoc parent n

/-- Embedding of `inspect.signature(obj)`: the signature of a callable, a plain
`TypeError` on a non-callable object. -/
def pySignature (v : PyVal) : Except StyleError Sig :=
  if v.callable then .ok v.sig else .error .pySignatureTypeError

/-- Embedding of `MatchSignatureMeta.__init__`: scan the namespace in declaration
order; skip private names and non-callable values; for a truthy parent
binding compare `inspect.signature` of parent and child and raise
`SignatureError` on inequality. -/
def matchSignatureCheck (parent : List (String × PyVal)) :
    List (String × PyVal) → Except StyleError Unit
  | [] => .ok ()
  | (name, value) :: rest =>
    if startsUnderscore name || !value.callable then
      matchSignatureCheck parent rest
    else
      match lookupAttr parent name with
      | some prev =>
        if prev.truthy then
          match pySignature prev with
          | .error e => .error e
          | .ok prevSig =>
            if prevSig ≠ value.sig then
              .error (.signatureError name prevSig value.sig)
            else
              matchSignatureCheck parent rest
        else
          matchSignatureCheck parent rest
      | none => matchSignatureCheck parent rest

/-- A member that makes the signature check raise `SignatureError`: a
non-private callable redefining a truthy, callable parent binding with a
different signature. -/
def TriggersMismatch (parent : List (String × PyVal)) (n : String) (v : PyVal) : Prop :=
  startsUnderscore n = false ∧ v.callable = true ∧
    ∃ prev, lookupAttr parent n = some prev ∧ prev.truthy = true ∧
      prev.callable = true ∧ prev.sig ≠ v.sig

/-- A member that makes the signature check raise anything at all: a
non-private callable whose truthy parent binding is either non-callable
(plain `TypeError` from `inspect.signature`) or signature-differing. -/
def TriggersError (parent : List (String × PyVal)) (n : String) (v : PyVal) : Prop :=
  startsUnderscore n = false ∧ v.callable = true ∧
    ∃ prev, lookupAttr parent n = some prev ∧ prev.truthy = true ∧
      (prev.callable = false ∨ prev.sig ≠ v.sig)

theorem triggersError_of_mismatch {parent : List (String × PyVal)} {n : String}
    {v : PyVal} (h : TriggersMismatch parent n v) : TriggersError parent n v := by
  obtain ⟨h1, h2, prev, hl, ht, -, hs⟩ := h
  exact ⟨h1, h2, prev, hl, ht, Or.inr hs⟩

/-- Splitting lists at the member that fires: dropping a head that fires
nothing. -/
theorem split_cons_iff (parent : List (String × PyVal)) (n₀ : String) (v₀ : PyVal)
    (tl : List (String × PyVal)) (h : ¬ TriggersError parent n₀ v₀) :
    (∃ pre n v rest, (n₀, v₀) :: tl = pre ++ (n, v) :: rest ∧
        TriggersMismatch parent n v ∧ ∀ q ∈ pre, ¬ TriggersError parent q.1 q.2) ↔
      (∃ pre n v rest, tl = pre ++ (n, v) :: rest ∧
        TriggersMismatch parent n v ∧ ∀ q ∈ pre, ¬ TriggersError parent q.1 q.2) := by
  constructor
  · rintro ⟨pre, n, v, rest, heq, hm, hpre⟩
    cases pre with
    | nil =>
      simp only [List.nil_append, List.cons.injEq, Prod.mk.injEq] at heq
      exact absurd (triggersError_of_mismatch (heq.1.1 ▸ heq.1.2 ▸ hm)) h
    | cons q pre' =>
      simp only [List.cons_append, List.cons.injEq] at heq
      exact ⟨pre', n, v, rest, heq.2, hm, fun q' hq' => hpre q' (List.mem_cons_of_mem q hq')⟩
  · rintro ⟨pre, n, v, rest, heq, hm, hpre⟩
    refine ⟨(n₀, v₀) :: pre, n, v, rest, by simp [heq], hm, ?_⟩
    intro q hq
    rcases List.mem_cons.mp hq with rfl | hq'
    · exact h
    · exact hpre q hq'

theorem msc_skip (parent : List (String × PyVal)) (n : String) (v : PyVal)
    (tl : List (String × PyVal)) (h : startsUnderscore n = true ∨ v.callable = false) :
    matchSignatureCheck parent ((n, v) :: tl) = matchSignatureCheck parent tl := by
  rcases h with h | h <;> simp [matchSignatureCheck, h]

theorem msc_none (parent : List (String × PyVal)) (n : String) (v : PyVal)
    (tl : List (String × PyVal)) (h1 : startsUnderscore n = false)
    (h2 : v.callable = true) (hl : lookupAttr parent n = none) :
    matchSignatureCheck parent ((n, v) :: tl) = matchSignatureCheck parent tl := by
  simp [matchSignatureCheck, h1, h2, hl]

theorem msc_falsy (parent : List (String × PyVal)) (n : String) (v : PyVal)
    (tl : List (String × PyVal)) (prev : PyVal) (h1 : startsUnderscore n = false)
    (h2 : v.callable = true) (hl : lookupAttr parent n = some prev)
    (ht : prev.truthy = false) :
    matchSignatureCheck parent ((n, v) :: tl) = matchSignatureCheck parent tl := by
  simp [matchSignatureCheck, h1, h2, hl, ht]

theorem msc_sigTypeError (parent : List (String × PyVal)) (n : String) (v : PyVal)
    (tl : List (String × PyVal)) (prev : PyVal) (h1 : startsUnderscore n = false)
    (h2 : v.callable = true) (hl : lookupAttr parent n = some prev)
    (ht : prev.truthy = true) (hc : prev.callable = false) :
    matchSignatureCheck parent ((n, v) :: tl) = .error .pySignatureTypeError := by
  simp [matchSignatureCheck, h1, h2, hl, ht, pySignature, hc]

theorem msc_sigMismatch (parent : List (String × PyVal)) (n : String) (v : PyVal)
    (tl : List (String × PyVal)) (prev : PyVal) (h1 : startsUnderscore n = false)
    (h2 : v.callable = true) (hl : lookupAttr parent n = some prev)
    (ht : prev.truthy = true) (hc : prev.callable = true) (hs : prev.sig ≠ v.sig) :
    matchSignatureCheck parent ((n, v) :: tl) =
      .error (.signatureError n prev.sig v.sig) := by
  simp [matchSignatureCheck, h1, h2, hl, ht, pySignature, hc, hs]

theorem msc_sigEqual (parent : List (String × PyVal)) (n : String) (v : PyVal)
    (tl : List (String × PyVal)) (prev : PyVal) (h1 : startsUnderscore n = false)
    (h2 : v.callable = true) (hl : lookupAttr parent n = some prev)
    (ht : prev.truthy = true) (hc : prev.callable = true) (hs : prev.sig = v.sig) :
    matchSignatureCheck parent ((n, v) :: tl) = matchSignatureCheck parent tl := by
  simp [matchSignatureCheck, h1, h2, hl, ht, pySignature, hc, hs]

/-- C2 (amended): constructing a subclass under `MatchSignatureMeta`
raises `SignatureMismatch` (`SignatureError`) iff some declared member is
a non-private callable whose truthy parent binding is callable with a
different full signature, *and* every earlier declared member fires
nothing — in particular, a member redefining a truthy non-callable parent
binding aborts the scan with a plain `TypeError` from
`inspect.signature` instead (see `claim_C2_counterexample`), and a falsy
parent binding is skipped entirely.  Redefining with an identical
signature succeeds, and private names are exempt. -/
theorem claim_C2 (parent ns : List (String × PyVal)) :
    (∃ qn p c, matchSignatureCheck parent ns = .error (.signatureError qn p c)) ↔
      ∃ pre n v rest, ns = pre ++ (n, v) :: rest ∧
        TriggersMismatch parent n v ∧ ∀ q ∈ pre, ¬ TriggersError parent q.1 q.2 := by
  induction ns with
  | nil =>
    constructor
    · rintro ⟨qn, p, c, h⟩
      simp [matchSignatureCheck] at h
    · rintro ⟨pre, n, v, rest, heq, -, -⟩
      cases pre <;> simp at heq
  | cons hd tl ih =>
    obtain ⟨n₀, v₀⟩ := hd
    cases hpriv : startsUnderscore n₀ with
    | true =>
      have hne : ¬ TriggersError parent n₀ v₀ := by
        rintro ⟨hx, -⟩
        simp [hpriv] at hx
      rw [msc_skip parent n₀ v₀ tl (Or.inl hpriv), ih, split_cons_iff parent n₀ v₀ tl hne]
    | false =>
      cases hcall : v₀.callable with
      | false =>
        have hne : ¬ TriggersError parent n₀ v₀ := by
          rintro ⟨-, hx, -⟩
          simp [hcall] at hx
        rw [msc_skip parent n₀ v₀ tl (Or.inr hcall), ih,
          split_cons_iff parent n₀ v₀ tl hne]
      | true =>
        cases hl : lookupAttr parent n₀ with
        | none =>
          have hne : ¬ TriggersError parent n₀ v₀ := by
            rintro ⟨-, -, prev, hprev, -⟩
            rw [hl] at hprev
            exact Option.noConfusion hprev
          rw [msc_none parent n₀ v₀ tl hpriv hcall hl, ih,
            split_cons_iff parent n₀ v₀ tl hne]
        | some prev =>
          cases ht : prev.truthy with
          | false =>
            have hne : ¬ TriggersError parent n₀ v₀ := by
              rintro ⟨-, -, prev', hprev', ht', -⟩
              rw [hl] at hprev'
              obtain rfl : prev = prev' := Option.some.inj hprev'
              simp [ht] at ht'
            rw [msc_falsy parent n₀ v₀ tl prev hpriv hcall hl ht, ih,
              split_cons_iff parent n₀ v₀ tl hne]
          | true =>
            cases hc : prev.callable with
            | false =>
              rw [msc_sigTypeError parent n₀ v₀ tl prev hpriv hcall hl ht hc]
              constructor
              · rintro ⟨qn, p, c, hcontra⟩
                simp at hcontra
              · rintro ⟨pre, n, v, rest, heq, hm, hpre⟩
                cases pre with
                | nil =>
                  simp only [List.nil_append, List.cons.injEq, Prod.mk.injEq] at heq
                  obtain ⟨⟨rfl, rfl⟩, -⟩ := heq
                  obtain ⟨-, -, prev', hprev', -, hc', -⟩ := hm
                  rw [hl] at hprev'
                  obtain rfl : prev = prev' := Option.some.inj hprev'
                  simp [hc] at hc'
                | cons q pre' =>
                  simp only [List.cons_append, List.cons.injEq] at heq
                  obtain ⟨rfl, -⟩ := heq
                  exact absurd ⟨hpriv, hcall, prev, hl, ht, Or.inl hc⟩
                    (hpre (n₀, v₀) (List.mem_cons_self _ pre'))
            | true =>
              by_cases hs : prev.sig = v₀.sig
              · have hne : ¬ TriggersError parent n₀ v₀ := by
                  rintro ⟨-, -, prev', hprev', -, hor⟩
                  rw [hl] at hprev'
                  obtain rfl : prev = prev' := Option.some.inj hprev'
                  rcases hor with hx | hx
                  · simp [hc] at hx
                  · exact hx hs
                rw [msc_sigEqual parent n₀ v₀ tl prev hpriv hcall hl ht hc hs, ih,
                  split_cons_iff parent n₀ v₀ tl hne]
              · rw [msc_sigMismatch parent n₀ v₀ tl prev hpriv hcall hl ht hc hs]
                constructor
                · intro _
                  exact ⟨[], n₀, v₀, tl, rfl,
                    ⟨hpriv, hcall, prev, hl, ht, hc, hs⟩, by simp⟩
                · intro _
                  exact ⟨n₀, prev.sig, v₀.sig, rfl⟩

/-- Signature of `def check(self, name, value)`. -/
def sigCheck : Sig :=
  ⟨[⟨"self", .positionalOrKeyword, none, none⟩,
    ⟨"name", .positionalOrKeyword, none, none⟩,
    ⟨"value", .positionalOrKeyword, none, none⟩], none⟩

/-- Signature of `def check(self, name, value, extra=False)`; the default
`False` is coded as `0`. -/
def sigCheckExtra : Sig :=
  ⟨[⟨"self", .positionalOrKeyword, none, none⟩,
    ⟨"name", .positionalOrKeyword, none, none⟩,
    ⟨"value", .positionalOrKeyword, none, none⟩,
    ⟨"extra", .positionalOrKeyword, some 0, none⟩], none⟩

/-- Parent attributes for the C2 counterexample: a truthy non-callable
constant `aa` (say, `aa = 5`) and a method `bb`. -/
def parentCx : List (String × PyVal) := [("aa", dataVal), ("bb", funcVal sigCheck)]

/-- Child namespace for the C2 counterexample: it redefines the constant
`aa` as a method and redefines `bb` with a different signature. -/
def nsCx : List (String × PyVal) :=
  [("aa", funcVal sigCheck), ("bb", funcVal sigCheckExtra)]

/-- C2, counterexample to the claim as stated: the child redefines the
non-private callable parent member `bb` (bound and callable on the
parent) with a differing signature, so the claim demands
`SignatureMismatch` — but the check aborts first on `aa`, whose truthy
parent binding is a non-callable constant, with the plain `TypeError`
that `inspect.signature` raises on a non-callable, so `SignatureError`
is never raised. -/
theorem claim_C2_counterexample :
    matchSignatureCheck parentCx nsCx = .error .pySignatureTypeError ∧
      (∀ qn p c, matchSignatureCheck parentCx nsCx ≠ .error (.signatureError qn p c)) ∧
      ("bb", funcVal sigCheckExtra) ∈ nsCx ∧ startsUnderscore "bb" = false ∧
      (funcVal sigCheckExtra).callable = true ∧
      lookupAttr parentCx "bb" = some (funcVal sigCheck) ∧
      (funcVal sigCheck).callable = true ∧ (funcVal sigCheck).truthy = true ∧
      sigCheck ≠ sigCheckExtra := by
  refine ⟨rfl, ?_, by decide, rfl, rfl, rfl, rfl, rfl, by decide⟩
  intro qn p c hc
  rw [show matchSignatureCheck parentCx nsCx = .error .pySignatureTypeError from rfl] at hc
  simp at hc

/-- Embedding of `NoLowerCaseMeta.__new__`: raise `BadClassNameError` when the class
name's first character is lower-case or the whole name is lower-case. -/
def noLowerCaseNew (className : String) : Except StyleError Unit :=
  if firstCharIsLower className || pyIsLower className then
    .error (.badClassName className)
  else
    .ok ()

/-- Embedding of `NoDuplicateDict.__setitem__`: reject a binding whose key is already
present, otherwise append it (insertion order is preserved). -/
def noDuplicateInsert (className : String) (d : List (String × PyVal))
    (n : String) (v : PyVal) : Except StyleError (List (String × PyVal)) :=
  if d.any (fun p => p.1 == n) then .error (.duplicateAttribute n className)
  else .ok (d ++ [(n, v)])

/-- Executing a class body under the `NoDuplicateDict` namespace returned
by `NoDuplicateMeta.__prepare__`: perform the body's bindings one at a
time, raising at the second binding of a name. -/
def noDuplicateSetItems (className : String) (d : List (String × PyVal)) :
    List (String × PyVal) → Except StyleError (List (String × PyVal))
  | [] => .ok d
  | (n, v) :: rest => do
    let d' ← noDuplicateInsert className d n v
    noDuplicateSetItems className d' rest

/-- The `_order` list as computed by `NoDuplicateMeta.__new__`: the declared names
that do not start with an underscore, in declaration order. -/
def nsOrder (ns : List (String × PyVal)) : List String :=
  (ns.filter (fun p => !startsUnderscore p.1)).map Prod.fst

/-- A constructed class object: its name, namespace and `_order` list. -/
structure ClassObj where
  className : String
  ns : List (String × PyVal)
  order : List String
deriving DecidableEq, Repr

/-- Class construction under `PepStyleMeta`, following the metaclass
machinery: the body executes into the `NoDuplicateDict` namespace (raising
on a duplicate binding), then the cooperative `__new__` chain runs
`NoLowerCaseMeta` and `NoMixedCaseMeta` (in MRO order, `ABCMeta` first
delegating inward), `NoDuplicateMeta.__new__` attaches `_order`, and
finally the metaclass `__init__` resolves to `MatchSignatureMeta`. -/
def pepStyleMake (className : String) (parent : List (String × PyVal))
    (bindings : List (String × PyVal)) : Except StyleError ClassObj := do
  let ns ← noDuplicateSetItems className [] bindings
  noLowerCaseNew className
  noMixedCaseNew className ns
  matchSignatureCheck parent ns
  return ⟨className, ns, nsOrder ns⟩

/-- The key whose second binding fires `DuplicateAttributeError`, given
the keys already seen. -/
def firstDupKeyAux (seen : List String) : List (String × PyVal) → Option String
  | [] => none
  | (n, _) :: rest => if n ∈ seen then some n else firstDupKeyAux (n :: seen) rest

/-- The key whose second binding fires `DuplicateAttributeError` while a
class body executes, `none` when all keys are distinct. -/
def firstDupKey (bs : List (String × PyVal)) : Option String := firstDupKeyAux [] bs

theorem firstDupKeyAux_congr (seen seen' : List String)
    (h : ∀ x, x ∈ seen ↔ x ∈ seen') (bs : List (String × PyVal)) :
    firstDupKeyAux seen bs = firstDupKeyAux seen' bs := by
  induction bs generalizing seen seen' with
  | nil => rfl
  | cons hd rest ih =>
    obtain ⟨n, v⟩ := hd
    unfold firstDupKeyAux
    by_cases hn : n ∈ seen
    · rw [if_pos hn, if_pos ((h n).mp hn)]
    · rw [if_neg hn, if_neg (fun hx => hn ((h n).mpr hx))]
      refine ih _ _ fun x => ?_
      simp only [List.mem_cons]
      exact or_congr Iff.rfl (h x)

theorem noDuplicateSetItems_eq (className : String) (d : List (String × PyVal))
    (bs : List (String × PyVal)) :
    noDuplicateSetItems className d bs =
      match firstDupKeyAux (d.map Prod.fst) bs with
      | some n => .error (.duplicateAttribute n className)
      | none => .ok (d ++ bs) := by
  induction bs generalizing d with
  | nil => simp [noDuplicateSetItems, firstDupKeyAux]
  | cons hd rest ih =>
    obtain ⟨n, v⟩ := hd
    have hmem : (d.any fun p => p.1 == n) = true ↔ n ∈ d.map Prod.fst := by
      simp [List.any_eq_true, beq_iff_eq, List.mem_map]
    unfold noDuplicateSetItems noDuplicateInsert firstDupKeyAux
    by_cases hn : n ∈ d.map Prod.fst
    · rw [if_pos (hmem.mpr hn), if_pos hn]
      rfl
    · rw [if_neg (fun hx => hn (hmem.mp hx)), if_neg hn]
      show noDuplicateSetItems className (d ++ [(n, v)]) rest = _
      rw [ih]
      rw [firstDupKeyAux_congr ((d ++ [(n, v)]).map Prod.fst) (n :: d.map Prod.fst)
        (by intro x; simp [List.mem_append, or_comm]) rest]
      cases firstDupKeyAux (n :: d.map Prod.fst) rest <;> simp

/-- C3 (amended): `PepStyleMeta` applies the structural policies in the
fixed, deterministic order *duplicate-member* (raised while the class body
executes, at the second binding of a name), *type-name convention*,
*naming convention*, *signature match*, failing fast on the first
violation; on any violation the type is never constructed.  (The claim's
order — naming convention before type-name convention before
duplicate-member — is refuted by `claim_C3_counterexample`.) -/
theorem claim_C3 (className : String) (parent bindings : List (String × PyVal)) :
    pepStyleMake className parent bindings =
      match firstDupKey bindings with
      | some n => .error (.duplicateAttribute n className)
      | none =>
        if firstCharIsLower className || pyIsLower className then
          .error (.badClassName className)
        else
          match bindings.find? (fun p => badAttrName p.1 p.2) with
          | some p => .error (.badAttributeName className p.1)
          | none =>
            (matchSignatureCheck parent bindings).map
              (fun _ => ⟨className, bindings, nsOrder bindings⟩) := by
  unfold pepStyleMake firstDupKey
  rw [noDuplicateSetItems_eq]
  simp only [List.map_nil, List.nil_append]
  cases hd : firstDupKeyAux [] bindings with
  | some n => rfl
  | none =>
    simp only [bind, Except.bind]
    unfold noLowerCaseNew
    by_cases hcn : (firstCharIsLower className || pyIsLower className) = true
    · rw [if_pos hcn, if_pos hcn]
    · rw [if_neg hcn, if_neg hcn]
      unfold noMixedCaseNew
      cases hf : bindings.find? (fun p => badAttrName p.1 p.2) with
      | some p => rfl
      | none =>
        cases hm : matchSignatureCheck parent bindings with
        | error e => rfl
        | ok u => cases u; simp [pure, Except.pure, Except.map]

/-- C3, counterexample to the claim as stated: the class name `badclass`
violates the type-name policy and the member `fooBar` violates the naming
policy; the claim's order says the naming violation (`BadAttributeName`)
fires first, but the code raises `BadClassNameError`, because in the
metaclass MRO `NoLowerCaseMeta.__new__` runs before
`NoMixedCaseMeta.__new__`. -/
theorem claim_C3_counterexample :
    badAttrName "fooBar" dataVal = true ∧
      (firstCharIsLower "badclass" || pyIsLower "badclass") = true ∧
      pepStyleMake "badclass" [] [("fooBar", dataVal)] =
        .error (.badClassName "badclass") ∧
      ∀ n, pepStyleMake "badclass" [] [("fooBar", dataVal)] ≠
        .error (.badAttributeName "badclass" n) := by
  refine ⟨by decide, by decide, rfl, ?_⟩
  intro n h
  rw [show pepStyleMake "badclass" [] [("fooBar", dataVal)] =
    .error (.badClassName "badclass") from rfl] at h
  simp at h

/-- Embedding of `SingletonMeta.__init__`: the per-class cache `cls.__instance` starts
out as `None`. -/
def singletonInit {Inst : Type} : Option Inst := none

/-- Embedding of `SingletonMeta.__call__` on one construction request: create the
instance via `super().__call__(*args, **kwargs)` and cache it when the
cache is empty, otherwise return the cached instance; the result pairs the
returned instance with the new cache and flags whether an instance was
created on this call. -/
def singletonCall {Inst Args : Type} (make : Args → Inst) (cache : Option Inst)
    (a : Args) : Inst × Option Inst × Nat :=
  match cache with
  | none => let i := make a; (i, some i, 1)
  | some i => (i, some i, 0)

/-- A sequence of construction requests against a singleton class:
returns the instances handed out, the final cache, and how many instances
were created in total. -/
def singletonRun {Inst Args : Type} (make : Args → Inst) (cache : Option Inst) :
    List Args → List Inst × Option Inst × Nat
  | [] => ([], cache, 0)
  | a :: rest =>
    let r := singletonCall make cache a
    let s := singletonRun make r.2.1 rest
    (r.1 :: s.1, s.2.1, r.2.2 + s.2.2)

theorem singletonRun_cached {Inst Args : Type} (make : Args → Inst) (i : Inst)
    (calls : List Args) :
    singletonRun make (some i) calls = (List.replicate calls.length i, some i, 0) := by
  induction calls with
  | nil => rfl
  | cons a rest ih => simp [singletonRun, singletonCall, ih, List.replicate]

/-- C4 (confirmed): for a type declared under `SingletonMeta`, the first
construction call creates and caches one instance, every later call —
whatever its arguments — returns that identical cached instance, exactly
one instance is ever created, and the cached instance (hence its state,
which in this pure embedding is the value `make a`) is unaffected by the
arguments of later calls. -/
theorem claim_C4 {Inst Args : Type} (make : Args → Inst) (a : Args)
    (rest : List Args) :
    singletonRun make singletonInit (a :: rest) =
      (List.replicate (rest.length + 1) (make a), some (make a), 1) := by
  simp [singletonRun, singletonCall, singletonInit, singletonRun_cached,
    List.replicate]

/-- Assignment into a Python instance `__dict__`: replace the value bound
to an existing key, otherwise append the new binding. -/
def dictInsert {V : Type} (d : List (String × V)) (k : String) (v : V) :
    List (String × V) :=
  match d with
  | [] => [(k, v)]
  | (k', v') :: rest => if k' == k then (k', v) :: rest else (k', v') :: dictInsert rest k v

theorem lookupAssoc_dictInsert {V : Type} (d : List (String × V)) (k : String)
    (v : V) : lookupAssoc (dictInsert d k v) k = some v := by
  induction d with
  | nil => simp [dictInsert, lookupAssoc]
  | cons hd rest ih =>
    obtain ⟨k', v'⟩ := hd
    by_cases hk : k' == k
    · simp [dictInsert, hk, lookupAssoc]
    · simp only [dictInsert, hk, if_false, Bool.false_eq_true]
      simpa [lookupAssoc, List.find?, hk] using ih

/-- A `Typed` descriptor instance: its `_expected_type` (a type, abstracted
to a tag of type `T`) and its `_name`.  The subclasses `Integer`, `Float`
and `String` only pre-bind `_expected_type`. -/
structure TypedSlot (T : Type) where
  expectedType : T
  name : String
deriving DecidableEq, Repr

/-- The `ExpectedType` violation: the `TypeError` raised by a slot or
typed property names the attribute and the expected type. -/
structure ExpectedTypeError (T : Type) where
  attrName : String
  expected : T
deriving DecidableEq, Repr

/-- Embedding of `Typed.__set__`: reject the write with a `TypeError` when
`isinstance(value, self._expected_type)` fails — leaving the instance
dictionary untouched — otherwise store the value under `self._name` in the
instance's `__dict__`.  `isinstance` is abstracted as a Boolean relation
between values and type tags. -/
def typedSet {V T : Type} (isinst : V → T → Bool) (slot : TypedSlot T)
    (dict : List (String × V)) (v : V) :
    List (String × V) × Option (ExpectedTypeError T) :=
  if !isinst v slot.expectedType then
    (dict, some ⟨slot.name, slot.expectedType⟩)
  else
    (dictInsert dict slot.name v, none)

/-- Reading a `Typed`-slotted attribute: `Typed` defines no `__get__`, so
attribute lookup falls through to the instance `__dict__` entry stored by
`__set__`. -/
def typedGet {V T : Type} (slot : TypedSlot T) (dict : List (String × V)) :
    Option V :=
  lookupAssoc dict slot.name

/-- The private-prefixed backing field used by `typed_property`. -/
def toPrivateName (name : String) : String := "_" ++ name

/-- The setter produced by `typed_property(name, expected_type)`: validate
via `isinstance`, raise `TypeError` on mismatch, otherwise store to the
private-prefixed backing field. -/
def typedPropertySet {V T : Type} (isinst : V → T → Bool) (name : String)
    (expectedType : T) (dict : List (String × V)) (v : V) :
    List (String × V) × Option (ExpectedTypeError T) :=
  if !isinst v expectedType then
    (dict, some ⟨name, expectedType⟩)
  else
    (dictInsert dict (toPrivateName name) v, none)

/-- The getter produced by `typed_property(name, expected_type)`: read the
private-prefixed backing field. -/
def typedPropertyGet {V : Type} (name : String) (dict : List (String × V)) :
    Option V :=
  lookupAssoc dict (toPrivateName name)

/-- C5 (confirmed): for every `Typed` attribute slot with expected type
`T` and every value `v`, writing `v` stores it — so a subsequent read of
the slot returns `v` — exactly when `isinstance(v, T)` holds; otherwise
the write raises the `ExpectedType` violation (naming the attribute and
the expected type) and the instance dictionary, hence any previously
stored value, is unchanged. -/
theorem claim_C5 {V T : Type} (isinst : V → T → Bool) (slot : TypedSlot T)
    (dict : List (String × V)) (v : V) :
    (isinst v slot.expectedType = true →
      typedSet isinst slot dict v = (dictInsert dict slot.name v, none) ∧
      typedGet slot (typedSet isinst slot dict v).1 = some v) ∧
    (isinst v slot.expectedType = false →
      typedSet isinst slot dict v = (dict, some ⟨slot.name, slot.expectedType⟩)) := by
  constructor
  · intro h
    simp [typedSet, typedGet, h, lookupAssoc_dictInsert]
  · intro h
    simp [typedSet, h]

/-- C9 (confirmed): a `typed_property(name, T)` accessor pair and a
`Typed` slot with expected type `T` and the same attribute name enforce
identical semantics: both accept a write exactly when `isinstance(v, T)`
holds — after which their own read returns `v` — and both otherwise raise
the same `ExpectedType` violation, leaving the stored state unchanged
(they differ only in the backing key, `name` in the instance dictionary
versus the private-prefixed `_name`). -/
theorem claim_C9 {V T : Type} (isinst : V → T → Bool) (name : String)
    (expectedType : T) (dict : List (String × V)) (v : V) :
    ((typedSet isinst ⟨expectedType, name⟩ dict v).2 = none ↔
      isinst v expectedType = true) ∧
    ((typedPropertySet isinst name expectedType dict v).2 = none ↔
      isinst v expectedType = true) ∧
    (isinst v expectedType = true →
      typedGet ⟨expectedType, name⟩ (typedSet isinst ⟨expectedType, name⟩ dict v).1 =
        some v ∧
      typedPropertyGet name (typedPropertySet isinst name expectedType dict v).1 =
        some v) ∧
    (isinst v expectedType = false →
      typedSet isinst ⟨expectedType, name⟩ dict v = (dict, some ⟨name, expectedType⟩) ∧
      typedPropertySet isinst name expectedType dict v =
        (dict, some ⟨name, expectedType⟩)) := by
  refine ⟨?_, ?_, ?_, ?_⟩
  · cases h : isinst v expectedType <;> simp [typedSet, h]
  · cases h : isinst v expectedType <;> simp [typedPropertySet, h]
  · intro h
    simp [typedSet, typedPropertySet, typedGet, typedPropertyGet, h,
      lookupAssoc_dictInsert]
  · intro h
    simp [typedSet, typedPropertySet, h]

/-- Which pre-bound descriptor subtype a slot was made from (`Typed`
itself, `Integer`, `Float` or `String`); `isinstance(value, Typed)` holds
for all of them. -/
inductive SlotKind where
  | typed
  | integer
  | float
  | string
deriving DecidableEq, Repr

/-- A descriptor instance as `OrderTypedMeta` sees it: its subtype and its
`_name`, which is `None` until the metaclass assigns it. -/
structure Slot where
  kind : SlotKind
  name : Option String
deriving DecidableEq, Repr

/-- A namespace value as `OrderTypedMeta` sees it: a `Typed` descriptor
instance, or any other value. -/
inductive ONsVal where
  | slot (s : Slot)
  | plain
deriving DecidableEq, Repr

/-- Embedding of `isinstance(value, Typed)`. -/
def isTypedInstance : ONsVal → Bool
  | .slot _ => true
  | .plain => false

/-- Embedding of `value._name = name` for a descriptor, the identity elsewhere. -/
def setSlotName (n : String) : ONsVal → ONsVal
  | .slot s => .slot { s with name := some n }
  | .plain => .plain

/-- The loop of `OrderTypedMeta.__new__`: walk the namespace in
declaration order; each `Typed` instance is told its own name and its name
is appended to `_order`.  Returns the updated namespace and `_order`. -/
def orderTypedScan : List (String × ONsVal) → List (String × ONsVal) × List String
  | [] => ([], [])
  | (n, v) :: rest =>
    let s := orderTypedScan rest
    match v with
    | .slot sl => ((n, .slot { sl with name := some n }) :: s.1, n :: s.2)
    | .plain => ((n, v) :: s.1, s.2)

/-- C8 (confirmed): for every type constructed under `OrderTypedMeta`, the
captured `_order` is exactly the list of member names bound to `Typed`
descriptor instances, in declaration order — `isinstance(value, Typed)`
holds for every slot subtype, so the subtype is irrelevant — and in the
constructed namespace each slot's `_name` is the member name it is bound
to. -/
theorem claim_C8 (ns : List (String × ONsVal)) :
    (orderTypedScan ns).2 = (ns.filter (fun p => isTypedInstance p.2)).map Prod.fst ∧
    (orderTypedScan ns).1 = ns.map (fun p => (p.1, setSlotName p.1 p.2)) ∧
    (∀ k nm, isTypedInstance (.slot ⟨k, nm⟩) = true) := by
  refine ⟨?_, ?_, fun k nm => rfl⟩ <;>
  · induction ns with
    | nil => rfl
    | cons hd rest ih =>
      obtain ⟨n, v⟩ := hd
      cases v <;> simp [orderTypedScan, isTypedInstance, setSlotName, ih]

/-- The `ArgumentTypeMismatch` violation: the `TypeError` raised by the
`enforce_type` wrapper names the parameter and the expected type. -/
structure ArgumentTypeMismatch (T : Type) where
  paramName : String
  expected : T
deriving DecidableEq, Repr

/-- The loop of the `enforce_type` wrapper: walk the bound actual
arguments in order; for a parameter covered by the wrap-time
`bound_types` mapping whose value fails `isinstance`, report it. -/
def checkArgs {V T : Type} (isinst : V → T → Bool) (boundTypes : List (String × T)) :
    List (String × V) → Option (ArgumentTypeMismatch T)
  | [] => none
  | (n, v) :: rest =>
    match lookupAssoc boundTypes n with
    | some t =>
      if !isinst v t then some ⟨n, t⟩ else checkArgs isinst boundTypes rest
    | none => checkArgs isinst boundTypes rest

/-- The wrapper returned by `enforce_type(...)` under `__debug__`: the
bound actual arguments are checked against the wrap-time `bound_types`
mapping, and only when no covered argument is violated does the wrapped
callable run.  The callable is abstracted as a function from its bound
arguments to its result. -/
def enforceTypeWrapped {V T R : Type} (isinst : V → T → Bool)
    (boundTypes : List (String × T)) (func : List (String × V) → R)
    (actual : List (String × V)) : Except (ArgumentTypeMismatch T) R :=
  match checkArgs isinst boundTypes actual with
  | some e => .error e
  | none => .ok (func actual)

/-- The `enforce_type(...)` decorator: under `__debug__` it wraps the
callable; with assertions disabled (`not __debug__`) it returns the
callable itself, unwrapped, so every invocation just runs it. -/
def enforceType {V T R : Type} (debug : Bool) (isinst : V → T → Bool)
    (boundTypes : List (String × T)) (func : List (String × V) → R)
    (actual : List (String × V)) : Except (ArgumentTypeMismatch T) R :=
  if debug then enforceTypeWrapped isinst boundTypes func actual
  else .ok (func actual)

/-- A call with some covered argument violating its expected type. -/
def ViolatesCover {V T : Type} (isinst : V → T → Bool)
    (boundTypes : List (String × T)) (actual : List (String × V)) : Prop :=
  ∃ p ∈ actual, ∃ t, lookupAssoc boundTypes p.1 = some t ∧ isinst p.2 t = false

theorem checkArgs_eq_none_iff {V T : Type} (isinst : V → T → Bool)
    (boundTypes : List (String × T)) (actual : List (String × V)) :
    checkArgs isinst boundTypes actual = none ↔
      ¬ ViolatesCover isinst boundTypes actual := by
  induction actual with
  | nil =>
    simp [checkArgs, ViolatesCover]
  | cons hd rest ih =>
    obtain ⟨n, v⟩ := hd
    unfold checkArgs
    cases hl : lookupAssoc boundTypes n with
    | none =>
      rw [ih]
      unfold ViolatesCover
      constructor
      · rintro hrest ⟨p, hp, t, hpt, hbad⟩
        rcases List.mem_cons.mp hp with rfl | hp'
        · rw [hl] at hpt
          exact Option.noConfusion hpt
        · exact hrest ⟨p, hp', t, hpt, hbad⟩
      · intro hno
        rintro ⟨p, hp, t, hpt, hbad⟩
        exact hno ⟨p, List.mem_cons_of_mem _ hp, t, hpt, hbad⟩
    | some t =>
      cases hi : isinst v t with
      | false =>
        simp only [hi, Bool.not_false, if_true, reduceCtorEq, false_iff, not_not]
        exact ⟨(n, v), List.mem_cons_self _ _, t, hl, hi⟩
      | true =>
        simp only [hi, Bool.not_true, Bool.false_eq_true, if_false]
        rw [ih]
        unfold ViolatesCover
        constructor
        · rintro hrest ⟨p, hp, t', hpt, hbad⟩
          rcases List.mem_cons.mp hp with rfl | hp'
          · rw [hl] at hpt
            obtain rfl : t = t' := Option.some.inj hpt
            simp [hi] at hbad
          · exact hrest ⟨p, hp', t', hpt, hbad⟩
        · intro hno
          rintro ⟨p, hp, t', hpt, hbad⟩
          exact hno ⟨p, List.mem_cons_of_mem _ hp, t', hpt, hbad⟩

/-- C6 (confirmed): each invocation of the `enforce_type` wrapper raises
`ArgumentTypeMismatch` iff some parameter covered by the wrap-time
expectation mapping receives a value violating its expected type; when it
raises, the result is independent of the wrapped callable's body (the
body never executes, so it has no side effects); otherwise the wrapper
delegates and returns the wrapped callable's result unchanged.  The
covered set is the wrap-time `boundTypes` parameter, fixed independently
of each call's actual arguments. -/
theorem claim_C6 {V T R : Type} (isinst : V → T → Bool)
    (boundTypes : List (String × T)) (func : List (String × V) → R)
    (actual : List (String × V)) :
    ((∃ e, enforceTypeWrapped isinst boundTypes func actual = .error e) ↔
      ViolatesCover isinst boundTypes actual) ∧
    (∀ g : List (String × V) → R, ViolatesCover isinst boundTypes actual →
      enforceTypeWrapped isinst boundTypes func actual =
        enforceTypeWrapped isinst boundTypes g actual) ∧
    (¬ ViolatesCover isinst boundTypes actual →
      enforceTypeWrapped isinst boundTypes func actual = .ok (func actual)) := by
  refine ⟨?_, ?_, ?_⟩
  · unfold enforceTypeWrapped
    cases hc : checkArgs isinst boundTypes actual with
    | none =>
      simp only [reduceCtorEq, exists_false, false_iff]
      exact (checkArgs_eq_none_iff isinst boundTypes actual).mp hc
    | some e =>
      simp only [Except.error.injEq, exists_eq', true_iff]
      by_contra hno
      rw [← checkArgs_eq_none_iff isinst boundTypes actual] at hno
      rw [hc] at hno
      exact Option.noConfusion hno
  · intro g hviol
    unfold enforceTypeWrapped
    cases hc : checkArgs isinst boundTypes actual with
    | none =>
      exact absurd hviol ((checkArgs_eq_none_iff isinst boundTypes actual).mp hc)
    | some e => rfl
  · intro hno
    unfold enforceTypeWrapped
    rw [(checkArgs_eq_none_iff isinst boundTypes actual).mpr hno]

/-- C10 (confirmed): with assertions disabled (`__debug__` false),
`enforce_type` returns the wrapped callable itself: every invocation,
whatever the declared expectation mapping, performs no argument type
check, never raises `ArgumentTypeMismatch`, and just returns the
callable's result. -/
theorem claim_C10 {V T R : Type} (isinst : V → T → Bool)
    (boundTypes : List (String × T)) (func : List (String × V) → R)
    (actual : List (String × V)) :
    enforceType false isinst boundTypes func actual = .ok (func actual) ∧
    ∀ e, enforceType false isinst boundTypes func actual ≠ .error e := by
  refine ⟨rfl, fun e h => ?_⟩
  rw [show enforceType false isinst boundTypes func actual = .ok (func actual)
    from rfl] at h
  exact Except.noConfusion h

/-- A namespace value as the abstract-completeness machinery sees it:
whether it carries `__isabstractmethod__`, the marker set by
`abstractstyle` (which simply delegates to `abc.abstractmethod`). -/
structure AbsValue where
  isAbstract : Bool
deriving DecidableEq, Repr

/-- A class namespace for the abstract-completeness machinery. -/
abbrev AbsNs := List (String × AbsValue)

/-- A class object built under `abc.ABCMeta` (which `PepStyleMeta`
inherits): the namespaces of its MRO, own first, and its computed
`__abstractmethods__`. -/
structure AbsClass where
  mro : List AbsNs
  abstracts : List String
deriving DecidableEq, Repr

/-- Embedding of `getattr(cls, n, None)`: resolve an attribute through the MRO. -/
def resolveAttr : List AbsNs → String → Option AbsValue
  | [], _ => none
  | ns :: rest, n =>
    match lookupAssoc ns n with
    | some v => some v
    | none => resolveAttr rest n

/-- The MRO contributed by the optional parent. -/
def parentMro (parent : Option AbsClass) : List AbsNs :=
  match parent with
  | some p => p.mro
  | none => []

/-- The parent's `__abstractmethods__` (empty without a parent). -/
def parentAbstracts (parent : Option AbsClass) : List String :=
  match parent with
  | some p => p.abstracts
  | none => []

/-- Embedding of `getattr(getattr(cls, n, None), "__isabstractmethod__", False)`: is
the name still bound to an abstract member on the class? -/
def stillAbstract (mro : List AbsNs) (n : String) : Bool :=
  match resolveAttr mro n with
  | some v => v.isAbstract
  | none => false

/-- The `__abstractmethods__` bookkeeping of `abc.ABCMeta.__new__`
(standard-library behaviour that `abstractstyle` and `PepStyleMeta`
delegate to): the declared members marked abstract, plus every inherited
abstract name that still resolves to an abstract member on the new class.
Declaration itself never fails on account of abstract members. -/
def abcNew (ns : AbsNs) (parent : Option AbsClass) : AbsClass :=
  let mro := ns :: parentMro parent
  let own := (ns.filter (fun p => p.2.isAbstract)).map Prod.fst
  let inherited := (parentAbstracts parent).filter (fun n => stillAbstract mro n)
  ⟨mro, own ++ inherited⟩

/-- The violation raised at instance-construction time for a class whose
`__abstractmethods__` is non-empty (spec name: `AbstractNotOverridden`;
CPython raises it as a `TypeError` listing the abstract names). -/
inductive AbcError where
  | abstractNotOverridden (names : List String)
deriving DecidableEq, Repr

/-- Instance construction: `object.__new__` refuses to instantiate while
the class still carries unresolved abstract members. -/
def abcCall (cls : AbsClass) : Except AbcError Unit :=
  if cls.abstracts.isEmpty then .ok ()
  else .error (.abstractNotOverridden cls.abstracts)

/-- Whether an `Except` computation succeeded. -/
def exceptOk {E A : Type} : Except E A → Bool
  | .ok _ => true
  | .error _ => false

theorem exceptOk_abcCall (cls : AbsClass) :
    exceptOk (abcCall cls) = true ↔ cls.abstracts = [] := by
  unfold abcCall
  cases h : cls.abstracts <;> simp [h, exceptOk, List.isEmpty]

theorem stillAbstract_iff (mro : List AbsNs) (n : String) :
    stillAbstract mro n = true ↔
      ∃ v, resolveAttr mro n = some v ∧ v.isAbstract = true := by
  unfold stillAbstract
  cases h : resolveAttr mro n <;> simp [h]

theorem abcNew_abstracts_eq_nil_iff (ns : AbsNs) (parent : Option AbsClass) :
    (abcNew ns parent).abstracts = [] ↔
      ((∀ p ∈ ns, p.2.isAbstract = false) ∧
        ∀ n ∈ parentAbstracts parent,
          ¬ ∃ v, resolveAttr (ns :: parentMro parent) n = some v ∧
            v.isAbstract = true) := by
  unfold abcNew
  simp only [List.append_eq_nil, List.map_eq_nil_iff, List.filter_eq_nil_iff]
  constructor
  · rintro ⟨hown, hinh⟩
    refine ⟨fun p hp => ?_, fun n hn => ?_⟩
    · simpa using hown p hp
    · intro hex
      exact hinh n hn ((stillAbstract_iff _ n).mpr hex)
  · rintro ⟨hown, hinh⟩
    refine ⟨fun p hp => by simp [hown p hp], fun n hn hsa => ?_⟩
    exact hinh n hn ((stillAbstract_iff _ n).mp hsa)

/-- C7 (confirmed): declaring a type with members marked by
`abstractstyle` always succeeds (`abcNew` is total and raises nothing);
instantiating it succeeds iff no declared member is abstract and every
abstract member inherited from the parent has been overridden by a
concrete implementation — so a type still carrying abstract members, or
any subclass that has not overridden them all, fails to instantiate, with
the `AbstractNotOverridden` violation listing the offending names; the
gate applies to every class built through the inherited metaclass, hence
to all subclasses of a type opting in. -/
theorem claim_C7 (ns : AbsNs) (parent : Option AbsClass) :
    (exceptOk (abcCall (abcNew ns parent)) = true ↔
      ((∀ p ∈ ns, p.2.isAbstract = false) ∧
        ∀ n ∈ parentAbstracts parent,
          ¬ ∃ v, resolveAttr (ns :: parentMro parent) n = some v ∧
            v.isAbstract = true)) ∧
    (exceptOk (abcCall (abcNew ns parent)) = false →
      ∃ names, names ≠ [] ∧
        abcCall (abcNew ns parent) = .error (.abstractNotOverridden names)) := by
  refine ⟨(exceptOk_abcCall _).trans (abcNew_abstracts_eq_nil_iff ns parent), ?_⟩
  intro hfail
  have hne : (abcNew ns parent).abstracts ≠ [] := by
    intro hnil
    rw [(exceptOk_abcCall _).mpr hnil] at hfail
    exact Bool.noConfusion hfail
  refine ⟨(abcNew ns parent).abstracts, hne, ?_⟩
  unfold abcCall
  rw [if_neg ?_]
  intro hempty
  exact hne (List.isEmpty_iff.mp hempty)

end Punish
